import Mathlib

/-!
Verification of the cargo2ports lockfile-to-stanza converter.

The development shallowly embeds the two Python sources,
src/cargo2ports.py and src/cargoV2forports.py, as executable Lean
functions over character lists.  Python strings are modelled as
List Char (wrapped in String at the interfaces), Python dicts built by
item assignment are modelled as insertion-ordered association lists,
and exceptions (KeyError, NameError, SystemExit) are modelled with
Option or an explicit process-result structure.
-/

set_option autoImplicit false

namespace Cargo2Ports

/-- Dict models a Python dict with string keys and values: an
insertion-ordered association list with unique keys.  Assignment to an
existing key replaces its value in place; a new key is appended. -/
abbrev Dict := List (String × String)

/-- dictInsert models Python item assignment d[k] = v. -/
def dictInsert : Dict → String → String → Dict
  | [], k, v => [(k, v)]
  | (k₀, v₀) :: d, k, v =>
    if k₀ = k then (k, v) :: d else (k₀, v₀) :: dictInsert d k v

/-- dictFind? models Python d[k] lookup, returning none where Python
would raise KeyError. -/
def dictFind? : Dict → String → Option String
  | [], _ => none
  | (k₀, v₀) :: d, k => if k₀ = k then some v₀ else dictFind? d k

/-- hasKey models the Python expression k in d. -/
def hasKey (d : Dict) (k : String) : Bool :=
  (dictFind? d k).isSome

/-- startsWith p l is true when the character list p is an initial
segment of l. -/
def startsWith : List Char → List Char → Bool
  | [], _ => true
  | _ :: _, [] => false
  | p :: ps, c :: cs => p == c && startsWith ps cs

/-- splitNL splits a character list at the first newline: it returns
the first line and the list of remaining lines (split at every later
newline as well), mirroring Python str.split applied with a newline
separator. -/
def splitNL : List Char → List Char × List (List Char)
  | [] => ([], [])
  | c :: cs =>
    let r := splitNL cs
    if c = '\n' then ([], r.1 :: r.2) else (c :: r.1, r.2)

/-- pySplitLines models the Python expression text.split, with a
newline separator: every newline produces a boundary, and the result
always has one more segment than there are newlines. -/
def pySplitLines (cs : List Char) : List (List Char) :=
  (splitNL cs).1 :: (splitNL cs).2

/-- intercalateNL joins segments with single newline characters; it is
the left inverse of pySplitLines on newline-free segments. -/
def intercalateNL : List (List Char) → List Char
  | [] => []
  | [s] => s
  | s :: t :: rest => s ++ '\n' :: intercalateNL (t :: rest)

/-- splitFirstEq models line.split on an equals sign with maxsplit 1:
the characters before the first equals sign and those after it. -/
def splitFirstEq : List Char → List Char × List Char
  | [] => ([], [])
  | c :: cs =>
    if c = '=' then ([], cs)
    else
      let r := splitFirstEq cs
      (c :: r.1, r.2)

/-- dropTrailWhile removes the longest suffix whose characters satisfy
p. -/
def dropTrailWhile (p : Char → Bool) (cs : List Char) : List Char :=
  (cs.reverse.dropWhile p).reverse

/-- stripEdge models Python str.strip with a fixed character class:
it removes the maximal prefix and suffix of characters satisfying p. -/
def stripEdge (p : Char → Bool) (cs : List Char) : List Char :=
  dropTrailWhile p (cs.dropWhile p)

/-- stripAll is the character-list core of strip_string in both
sources: first strip surrounding whitespace, then strip all
surrounding double-quote characters. -/
def stripAll (cs : List Char) : List Char :=
  stripEdge (· == '"') (stripEdge (·.isWhitespace) cs)

/-- strip_string embeds strip_string from src/cargo2ports.py lines
27-34 (identical in src/cargoV2forports.py): s.strip() followed by
stripping surrounding double quotes. -/
def strip_string (s : String) : String :=
  String.mk (stripAll s.data)

/-- pySplitWsGo scans characters while either accumulating the current
(reversed) token (inTok true) or sitting inside a separator whitespace
run (inTok false); a whitespace character met while in a token closes
the token, and the end of input closes the current token, or emits the
empty trailing token that re.split produces for trailing whitespace. -/
def pySplitWsGo (inTok : Bool) (cur : List Char) :
    List Char → List (List Char)
  | [] => if inTok then [cur.reverse] else [[]]
  | c :: cs =>
    if c.isWhitespace then
      if inTok then cur.reverse :: pySplitWsGo false [] cs
      else pySplitWsGo false [] cs
    else pySplitWsGo true (c :: cur) cs

/-- pySplitWs models re.split on a run of whitespace: maximal
whitespace runs separate tokens, and leading or trailing whitespace
contributes an empty first or last token, exactly as re.split does. -/
def pySplitWs (cs : List Char) : List (List Char) :=
  pySplitWsGo true [] cs

/-- spaces n models the Python expression n * " " on an int n: the
empty string when n is not positive. -/
def spaces (n : Int) : String :=
  String.mk (List.replicate n.toNat ' ')

/-- isBlankSeg is true of a line all of whose characters are
whitespace, including the empty line. -/
def isBlankSeg (l : List Char) : Bool :=
  l.all (·.isWhitespace)

/-- parse_package_block embeds parse_package_block from
src/cargo2ports.py lines 109-121: split the block on newlines; every
line containing an equals sign is split on the first equals sign, both
halves are passed through strip_string, and the pair is assigned into
the dict; a line without an equals sign leaves the dict untouched. -/
def parse_package_block (text : String) : Dict :=
  (pySplitLines text.data).foldl
    (fun d l =>
      if l.contains '=' then
        let kv := splitFirstEq l
        dictInsert d (String.mk (stripAll kv.1)) (String.mk (stripAll kv.2))
      else d)
    []

/-- headerSeg is the literal package table header. -/
def headerSeg : List Char := "[[package]]".data

/-- tryK realises the backtracking search of the block regex of
get_packages (src/cargo2ports.py lines 55-61) once a content run has
been located.  run is the maximal sequence of consecutive non-empty
lines that the greedy group can consume, after holds the remaining
newline-terminated lines, fin the final line of the file (the segment
with no trailing newline).  The capture is the longest prefix of run
(of length at least one) after which the terminator can match: either
the run is taken whole and is followed by an empty line or by the end
of a newline-terminated file, or the line right after the capture is
whitespace-only and serves as the terminator.  The returned pair is
the captured lines and the lines left for further scanning. -/
def tryK (run after : List (List Char)) (fin : List Char) :
    Nat → Option (List (List Char) × List (List Char))
  | 0 => none
  | k + 1 =>
    if k + 1 = run.length then
      if after.head? = some [] then some (run, after.drop 1)
      else if after.isEmpty && fin.isEmpty then some (run, [])
      else tryK run after fin k
    else
      match run.get? (k + 1) with
      | some t =>
        if isBlankSeg t then some (run.take (k + 1), run.drop (k + 2) ++ after)
        else tryK run after fin k
      | none => tryK run after fin k

/-- skipBlanks realises the whitespace consumption after the package
header in the block regex of get_packages: blank lines after the
header are absorbed before the one-or-more-content-lines group, and
the first content line loses the leading whitespace the greedy
whitespace consumed.  When only blank lines follow the header, the
engine backtracks into the consumed whitespace: if some skipped blank
line had at least one character (argument lastNB remembers the last
such line) and a bare newline is still available as terminator
(argument emptyAfter records a later empty line; otherwise the file
must end with a newline), the match captures the final character of
that blank line as a one-character line.  Otherwise no match exists at
this header.  The retreat is modelled for the case the claims
exercise, a header followed by blank lines only: when a content run
follows the blanks and itself fails to terminate, the engine would
retreat into the skipped blanks as well, a case the claims' domains
exclude. -/
def skipBlanks : Option (List Char) → Bool → List (List Char) → List Char →
    Option (List (List Char) × List (List Char))
  | lastNB, emptyAfter, [], fin =>
    match lastNB with
    | some w =>
      if emptyAfter || fin.isEmpty then
        match w.reverse with
        | c :: _ => some ([[c]], [])
        | [] => none
      else none
    | none => none
  | lastNB, emptyAfter, l :: ls, fin =>
    if l.isEmpty then skipBlanks lastNB true ls fin
    else if isBlankSeg l then skipBlanks (some l) false ls fin
    else
      let l₀ := l.dropWhile (·.isWhitespace)
      let run := l₀ :: ls.takeWhile (fun x => !x.isEmpty)
      tryK run (ls.dropWhile (fun x => !x.isEmpty)) fin run.length

/-- scanBlocksF embeds the finditer loop of get_packages from
src/cargo2ports.py lines 55-68 on line-structured input: the literal
package header occurs in the modelled inputs only as a line of its
own, a match consumes the block that follows it, and scanning resumes
on the remaining lines; a failed match at a header resumes the scan on
the following lines.  The fuel argument only serves structural
recursion: every step hands back at most as many lines as it consumed
from, so any fuel at least the number of lines gives the scan loop
itself. -/
def scanBlocksF : Nat → List (List Char) → List Char → List (List (List Char))
  | 0, _, _ => []
  | _ + 1, [], _ => []
  | fuel + 1, l :: ls, fin =>
    if l = headerSeg then
      match skipBlanks none false ls fin with
      | some (cap, rest) => cap :: scanBlocksF fuel rest fin
      | none => scanBlocksF fuel ls fin
    else scanBlocksF fuel ls fin

/-- blockChars rebuilds the captured block string: each captured line
with its trailing newline, concatenated, exactly as the regex capture
group reads in the source text. -/
def blockChars (ls : List (List Char)) : List Char :=
  ls.foldr (fun l acc => l ++ '\n' :: acc) []

/-- get_packages embeds get_packages from src/cargo2ports.py lines
47-68: find all package blocks and parse each into a dict, in document
order.  The line count is enough fuel, since the scan consumes at
least one line per step. -/
def get_packages (text : String) : List Dict :=
  let segs := pySplitLines text.data
  (scanBlocksF segs.length segs.dropLast (segs.getLastD [])).map
    (fun b => parse_package_block (String.mk (blockChars b)))

/-- metadataHeaderSeg is the literal metadata section header. -/
def metadataHeaderSeg : List Char := "[metadata]".data

/-- checksumKeySeg is the quoted key that opens a metadata checksum
line. -/
def checksumKeySeg : List Char := '"' :: "checksum".data

/-- isMetadataHeader recognises a line at which the anchored metadata
regex of get_packages_from_metadata (src/cargo2ports.py lines 79-84)
can match: the literal header possibly followed by whitespace only,
since any other trailing character would stop the anchored capture
group from matching at the next line start. -/
def isMetadataHeader (l : List Char) : Bool :=
  startsWith metadataHeaderSeg l && (l.drop 10).all (·.isWhitespace)

/-- isChecksumLine recognises a line the capture group of the metadata
regex consumes through its quoted-checksum alternative. -/
def isChecksumLine (l : List Char) : Bool :=
  startsWith checksumKeySeg l

/-- metaSection locates the capture group of the metadata regex on
line-structured input: the run of quoted-checksum or blank lines that
follows a metadata header line.  A header followed by no such line
yields no match there and the search continues.  The model covers
section lines whose quoted-checksum key is followed by at least one
non-whitespace character on the same line: on a line that ends right
after the key, the greedy whitespace of the quoted-checksum
alternative crosses the newline and absorbs the following line into
the capture, a case the claims' domains exclude. -/
def metaSection : List (List Char) → Option (List (List Char))
  | [] => none
  | l :: ls =>
    if isMetadataHeader l then
      let sec := ls.takeWhile (fun x => isChecksumLine x || isBlankSeg x)
      if sec.isEmpty then metaSection ls else some sec
    else metaSection ls

/-- metaLineRecord is one iteration of the line loop of
get_packages_from_metadata (src/cargo2ports.py lines 93-104): split
the line on whitespace runs; when there are at least six tokens, strip
every token and assign the tokens at the zero-based indices one, two
and five to the keys name, version and checksum of a fresh dict;
otherwise the line contributes nothing. -/
def metaLineRecord (line : List Char) : Option Dict :=
  match (pySplitWs line).map (fun t => String.mk (stripAll t)) with
  | _ :: t1 :: t2 :: _ :: _ :: t5 :: _ =>
    some (dictInsert (dictInsert (dictInsert [] "name" t1) "version" t2)
      "checksum" t5)
  | _ => none

/-- get_packages_from_metadata embeds get_packages_from_metadata from
src/cargo2ports.py lines 71-106: locate the metadata section and
collect, in order, the record of every section line with at least six
whitespace-delimited tokens; shorter lines are skipped, and a missing
section yields the empty list. -/
def get_packages_from_metadata (text : String) : List Dict :=
  match metaSection (pySplitLines text.data) with
  | none => []
  | some sec => sec.filterMap metaLineRecord

/-- STANZA_INDENT is the module-level default indent width. -/
def STANZA_INDENT : Int := 4

/-- STANZA_FIELD_WIDTH is the module-level default name/version field
width. -/
def STANZA_FIELD_WIDTH : Int := 38

/-- STANZA_SPACER_WIDTH is the module-level spacer width before the
checksum; the command line never overrides it. -/
def STANZA_SPACER_WIDTH : Int := 2

/-- get_crate_line embeds get_crate_line from src/cargo2ports.py lines
124-148, with the two mutable globals STANZA_INDENT and
STANZA_FIELD_WIDTH threaded as the parameters indentW and fieldW.  A
missing name, version or checksum key is the KeyError case, modelled
as none. -/
def get_crate_line (indentW fieldW : Int) (package_dict : Dict) :
    Option String :=
  match dictFind? package_dict "name" with
  | none => none
  | some name =>
    match dictFind? package_dict "version" with
    | none => none
    | some ver =>
      match dictFind? package_dict "checksum" with
      | none => none
      | some cksum =>
        let gap₀ : Int := fieldW - ((name.length : Int) + (ver.length : Int))
        let gapLen : Int := if gap₀ ≤ 0 then 1 else gap₀
        let spacerWidth : Int :=
          if gap₀ ≤ 0 then STANZA_SPACER_WIDTH - 1 else STANZA_SPACER_WIDTH
        some (spaces indentW ++ name ++ spaces gapLen ++ ver
          ++ spaces spacerWidth ++ cksum)

/-- stanza_lines embeds the enumerate loop of generate_crates_stanza
from src/cargo2ports.py lines 162-169: records without a checksum are
skipped; for the others a crate line is rendered, and the continuation
marker is appended unless the running index count over the whole,
unfiltered record list equals numBlocks minus one.  An exception while
rendering aborts the whole loop (none). -/
def stanza_lines (indentW fieldW : Int) (numBlocks : Nat) :
    Nat → List Dict → Option (List String)
  | _, [] => some []
  | count, pkg :: rest =>
    if hasKey pkg "checksum" then
      match get_crate_line indentW fieldW pkg with
      | none => none
      | some line =>
        let ending := if count = numBlocks - 1 then "" else " \\"
        (stanza_lines indentW fieldW numBlocks (count + 1) rest).map
          (fun ls => (line ++ ending) :: ls)
    else stanza_lines indentW fieldW numBlocks (count + 1) rest

/-- generate_crates_stanza embeds generate_crates_stanza from
src/cargo2ports.py lines 151-171: the declaration line followed by the
rendered crate lines, joined with newlines. -/
def generate_crates_stanza (indentW fieldW : Int) (pkg_dicts : List Dict) :
    Option String :=
  (stanza_lines indentW fieldW pkg_dicts.length 0 pkg_dicts).map
    (fun ls => String.intercalate "\n" ("cargo.crates \\" :: ls))

/-- searchCaretAux scans for a position right after a newline at which
the pattern matches. -/
def searchCaretAux (pat : List Char) : List Char → Bool
  | [] => false
  | c :: cs => (c == '\n' && startsWith pat cs) || searchCaretAux pat cs

/-- is_v1_lockfile embeds is_v1_lockfile from src/cargo2ports.py lines
174-179: a multiline search for the metadata header anchored at a line
start, that is at the start of the text or right after any newline. -/
def is_v1_lockfile (text : String) : Bool :=
  startsWith metadataHeaderSeg text.data
    || searchCaretAux metadataHeaderSeg text.data

/-- pipeline_packages embeds the extraction dispatch of main from
src/cargo2ports.py lines 226-229. -/
def pipeline_packages (contents : String) : List Dict :=
  if is_v1_lockfile contents then get_packages_from_metadata contents
  else get_packages contents

/-- fatal_message is the diagnostic printed by main via fatal when no
package definitions are found. -/
def fatal_message : String :=
  "No package definitions found: either not a Cargo.lock file, or file is empty."

/-- ProcResult records the externally observable outcome of one run:
process exit status, standard output and standard error. -/
structure ProcResult where
  exitCode : Nat
  stdout : String
  stderr : String
deriving DecidableEq, Repr

/-- driver_model embeds the driver tail of main from
src/cargo2ports.py lines 231-238, as a function of the record list the
extraction stage produced: call fatal (exit status one, message plus
newline on standard error) when the record list is empty, otherwise
print the stanza plus a newline to standard output and exit with
status zero.  An uncaught KeyError from rendering terminates the
interpreter with status one and a traceback on standard error, with
nothing on standard output. -/
def driver_model (indentW fieldW : Int) (packages : List Dict) : ProcResult :=
  if packages.isEmpty then
    ⟨1, "", fatal_message ++ "\n"⟩
  else
    match generate_crates_stanza indentW fieldW packages with
    | some out => ⟨0, out ++ "\n", ""⟩
    | none => ⟨1, "", "Traceback: KeyError"⟩

/-- main_model embeds main from src/cargo2ports.py lines 224-238 after
the file has been read: dispatch on the detected format to extract the
records, then run the driver tail on them. -/
def main_model (indentW fieldW : Int) (contents : String) : ProcResult :=
  driver_model indentW fieldW (pipeline_packages contents)

namespace V2

/-- parseAux embeds the loop of parse_package_block from
src/cargoV2forports.py lines 77-83, where the dict assignment sits
outside the equals-sign test: a line containing an equals sign is
split on the first one and both halves are remembered as the current
raw pair before being stripped and assigned; a line without an equals
sign re-assigns the previous stripped pair, and raises NameError
(modelled as none) when no pair exists yet. -/
def parseAux : Dict → Option (List Char × List Char) → List (List Char) →
    Option Dict
  | d, _, [] => some d
  | d, prev, l :: ls =>
    if l.contains '=' then
      let kv := splitFirstEq l
      parseAux
        (dictInsert d (String.mk (stripAll kv.1)) (String.mk (stripAll kv.2)))
        (some kv) ls
    else
      match prev with
      | none => none
      | some kv =>
        parseAux
          (dictInsert d (String.mk (stripAll kv.1)) (String.mk (stripAll kv.2)))
          (some kv) ls

/-- parse_package_block embeds parse_package_block from
src/cargoV2forports.py lines 72-83. -/
def parse_package_block (text : String) : Option Dict :=
  parseAux [] none (pySplitLines text.data)

end V2

/-- wfLine states that a line of a well-formed package block is
non-empty, does not begin with whitespace and contains no newline. -/
def wfLine (l : List Char) : Prop :=
  l ≠ [] ∧ (∀ c ∈ l.take 1, c.isWhitespace = false) ∧ '\n' ∉ l

/-- wfBlock states that a well-formed package block has at least one
line and only well-formed lines. -/
def wfBlock (b : List (List Char)) : Prop :=
  b ≠ [] ∧ ∀ l ∈ b, wfLine l

instance wfLine_decidable (l : List Char) : Decidable (wfLine l) := by
  unfold wfLine; infer_instance

instance wfBlock_decidable (b : List (List Char)) : Decidable (wfBlock b) := by
  unfold wfBlock; infer_instance

/-- mkBlockSegs lays out well-formed blocks as lines: each block is a
package header line, its content lines, and one empty separator
line. -/
def mkBlockSegs (blocks : List (List (List Char))) : List (List Char) :=
  blocks.foldr (fun b acc => headerSeg :: b ++ [] :: acc) []

/-- mkLockfile renders well-formed blocks as a full current-format
lockfile text: the laid-out lines followed by the empty final segment
of a newline-terminated file, joined with newlines. -/
def mkLockfile (blocks : List (List (List Char))) : String :=
  String.mk (intercalateNL (mkBlockSegs blocks ++ [[]]))

/-- exampleBlocks is a two-package example, the second package without
a checksum. -/
def exampleBlocks : List (List (List Char)) :=
  [["name = \"foo\"".data, "version = \"1.0\"".data,
    "checksum = \"abc123\"".data],
   ["name = \"bar\"".data, "version = \"2.0\"".data]]

/-! Supporting lemmas about the splitting and stripping primitives. -/

theorem get_packages_def (text : String) :
    get_packages text
      = (scanBlocksF (pySplitLines text.data).length
          (pySplitLines text.data).dropLast
          ((pySplitLines text.data).getLastD [])).map
          (fun b => parse_package_block (String.mk (blockChars b))) := rfl

theorem splitNL_no_nl {s : List Char} (h : '\n' ∉ s) : splitNL s = (s, []) := by
  induction s with
  | nil => rfl
  | cons c cs ih =>
    have hc : ¬(c = '\n') := fun e => h (e ▸ List.mem_cons_self c cs)
    simp [splitNL, ih (fun m => h (List.mem_cons_of_mem c m)), hc]

theorem splitNL_append {s rest : List Char} (h : '\n' ∉ s) :
    splitNL (s ++ '\n' :: rest) = (s, pySplitLines rest) := by
  induction s with
  | nil => simp [splitNL, pySplitLines]
  | cons c cs ih =>
    have hc : ¬(c = '\n') := fun e => h (e ▸ List.mem_cons_self c cs)
    simp [splitNL, ih (fun m => h (List.mem_cons_of_mem c m)), hc]

theorem pySplitLines_intercalateNL :
    ∀ (segs : List (List Char)), segs ≠ [] →
    (∀ l ∈ segs, '\n' ∉ l) →
    pySplitLines (intercalateNL segs) = segs
  | [], h, _ => absurd rfl h
  | [s], _, hnl => by
    simp [intercalateNL, pySplitLines, splitNL_no_nl (hnl s (by simp))]
  | s :: t :: rest, _, hnl => by
    have ih := pySplitLines_intercalateNL (t :: rest) (by simp)
      (fun l hl => hnl l (List.mem_cons_of_mem s hl))
    have happ := @splitNL_append s (intercalateNL (t :: rest))
      (hnl s (by simp))
    simp only [intercalateNL, pySplitLines] at ih happ ⊢
    rw [happ]
    exact congrArg (s :: ·) ih

theorem dropWhile_append_all {p : Char → Bool} {xs ys : List Char}
    (h : ∀ c ∈ xs, p c = true) :
    (xs ++ ys).dropWhile p = ys.dropWhile p := by
  induction xs with
  | nil => rfl
  | cons c cs ih =>
    simp only [List.cons_append, List.dropWhile_cons, h c (by simp), if_true]
    exact ih fun d hd => h d (by simp [hd])

theorem dropWhile_cons_false {p : Char → Bool} {c : Char} {cs : List Char}
    (h : p c = false) : (c :: cs).dropWhile p = c :: cs := by
  simp [List.dropWhile_cons, h]

theorem stripEdge_wrap (p : Char → Bool) (pref mid suf : List Char)
    (hpref : ∀ c ∈ pref, p c = true) (hsuf : ∀ c ∈ suf, p c = true)
    (hne : mid ≠ [])
    (hhead : ∀ c ∈ mid.take 1, p c = false)
    (hlast : ∀ c ∈ mid.reverse.take 1, p c = false) :
    stripEdge p (pref ++ mid ++ suf) = mid := by
  obtain ⟨c, cs, rfl⟩ : ∃ c cs, mid = c :: cs := by
    cases mid with
    | nil => exact absurd rfl hne
    | cons c cs => exact ⟨c, cs, rfl⟩
  have h1 : (pref ++ (c :: cs) ++ suf).dropWhile p = c :: (cs ++ suf) := by
    rw [List.append_assoc, dropWhile_append_all hpref, List.cons_append,
      dropWhile_cons_false (hhead c (by simp))]
  obtain ⟨d, ds, hd⟩ : ∃ d ds, (c :: cs).reverse = d :: ds := by
    cases hrev : (c :: cs).reverse with
    | nil => simp at hrev
    | cons d ds => exact ⟨d, ds, rfl⟩
  have hpd : p d = false := hlast d (by rw [hd]; simp)
  have h2 : dropTrailWhile p (c :: (cs ++ suf)) = c :: cs := by
    unfold dropTrailWhile
    have hrw : (c :: (cs ++ suf)).reverse = suf.reverse ++ (c :: cs).reverse := by
      rw [← List.cons_append, List.reverse_append]
    rw [hrw, dropWhile_append_all (fun x hx => hsuf x (List.mem_reverse.mp hx)),
      hd, dropWhile_cons_false hpd, ← hd, List.reverse_reverse]
  unfold stripEdge
  rw [h1, h2]

/-- C9 (amended): the one-layer unwrap round-trip holds for every
string that neither begins nor ends with a double-quote character:
wrapping such a string in arbitrary leading and trailing whitespace
and one layer of double quotes and applying strip_string yields the
string back, interior whitespace untouched.  On a string with a quote
at either end, strip_string removes every outer quote layer, not one
(see the counterexample). -/
theorem c9_strip_round_trip (s ws1 ws2 : String)
    (h1 : ∀ c ∈ ws1.data, c.isWhitespace = true)
    (h2 : ∀ c ∈ ws2.data, c.isWhitespace = true)
    (hh : ∀ c ∈ s.data.take 1, (c == '"') = false)
    (hl : ∀ c ∈ s.data.reverse.take 1, (c == '"') = false) :
    strip_string (ws1 ++ "\"" ++ s ++ "\"" ++ ws2) = s := by
  have heta : String.mk s.data = s := by cases s; rfl
  have hX : (ws1 ++ "\"" ++ s ++ "\"" ++ ws2).data
      = ws1.data ++ ('"' :: s.data ++ ['"']) ++ ws2.data := by
    simp [String.data_append]
  have hmidne : ('"' :: s.data ++ ['"'] : List Char) ≠ [] := by simp
  have hstage1 : stripEdge (·.isWhitespace)
      (ws1.data ++ ('"' :: s.data ++ ['"']) ++ ws2.data)
      = '"' :: s.data ++ ['"'] := by
    refine stripEdge_wrap _ _ _ _ h1 h2 hmidne ?_ ?_
    · intro c hc
      have hcq : c = '"' := by simpa using hc
      subst hcq; decide
    · intro c hc
      have hrv : ('"' :: s.data ++ ['"'] : List Char).reverse
          = '"' :: (s.data.reverse ++ ['"']) := by simp
      rw [hrv] at hc
      have hcq : c = '"' := by simpa using hc
      subst hcq; decide
  have hfinal : stripAll (ws1 ++ "\"" ++ s ++ "\"" ++ ws2).data = s.data := by
    unfold stripAll
    rw [hX, hstage1]
    cases hs : s.data with
    | nil => decide
    | cons a as =>
      rw [hs] at hh hl
      exact stripEdge_wrap (· == '"') ['"'] (a :: as) ['"']
        (by decide) (by decide) (by simp) hh hl
  unfold strip_string
  rw [hfinal, heta]

/-- C9 counterexample: the round-trip fails as universally stated.
Wrapping the three-character string quote-x-quote in whitespace and
one further layer of double quotes and stripping yields the bare x:
strip_string removes every surrounding quote, not one layer. -/
theorem c9_counterexample :
    strip_string (" " ++ "\"" ++ "\"x\"" ++ "\"" ++ " ") = "x"
      ∧ ("x" : String) ≠ "\"x\"" := by decide

/-- C1: the continuation-marker decision uses the record index in the
unfiltered list, so when the final record lacks a checksum the last
emitted line still carries the trailing marker, and the rendered
stanza ends in a dangling backslash, contradicting the specified
filtered-sequence behaviour. -/
theorem c1_trailing_marker_on_last_emitted_line :
    hasKey [("name", "bar"), ("version", "2.0")] "checksum" = false
      ∧ generate_crates_stanza 4 38
          [[("name", "foo"), ("version", "1.0"), ("checksum", "abc123")],
            [("name", "bar"), ("version", "2.0")]]
        = some ("cargo.crates \\\n    foo                                1.0  abc123 \\") := by
  decide

/-- C6: in cargoV2forports.py the dict assignment sits outside the
equals-sign test, so a block whose first line has no equals sign makes
parse_package_block raise NameError (modelled as none) instead of
ignoring the line; the cargo2ports.py parser ignores the line as
specified. -/
theorem c6_v2_crash_on_eqless_first_line :
    V2.parse_package_block "junk\nname = \"x\"" = none
      ∧ parse_package_block "junk\nname = \"x\"" = [("name", "x")] := by
  decide

/-- c9_witness instantiates the amended round-trip at a concrete
string with interior whitespace. -/
theorem c9_witness :
    (∀ c ∈ ("  " : String).data, c.isWhitespace = true)
      ∧ strip_string ("  " ++ "\"" ++ "hello world" ++ "\"" ++ "\t")
          = "hello world" :=
  ⟨by decide, c9_strip_round_trip "hello world" "  " "\t"
    (by decide) (by decide) (by decide) (by decide)⟩

/-- C2: per-line layout and padding arithmetic of get_crate_line: for
a record with name, version and checksum, when the name and version
lengths sum below the field width the line is the indent, the name, a
gap padding the pair out to the field width, the version, the full
spacer and the checksum; otherwise the gap is clamped to exactly one
space and the spacer is simultaneously reduced to the spacer width
minus one. -/
theorem c2_crate_line_layout (indentW fieldW : Int) (d : Dict)
    (name ver cksum : String)
    (hn : dictFind? d "name" = some name)
    (hv : dictFind? d "version" = some ver)
    (hc : dictFind? d "checksum" = some cksum) :
    ((name.length : Int) + (ver.length : Int) < fieldW →
      get_crate_line indentW fieldW d
        = some (spaces indentW ++ name
            ++ spaces (fieldW - ((name.length : Int) + (ver.length : Int)))
            ++ ver ++ spaces STANZA_SPACER_WIDTH ++ cksum))
    ∧ (fieldW ≤ (name.length : Int) + (ver.length : Int) →
      get_crate_line indentW fieldW d
        = some (spaces indentW ++ name ++ spaces 1 ++ ver
            ++ spaces (STANZA_SPACER_WIDTH - 1) ++ cksum)) := by
  constructor <;> intro h <;> simp only [get_crate_line, hn, hv, hc]
  · rw [if_neg (by omega), if_neg (by omega)]
  · rw [if_pos (by omega), if_pos (by omega)]

/-- c2_witness instantiates the layout at the worked example of the
specification: name foo, version 1.0, checksum abc123 at the default
widths. -/
theorem c2_witness :
    dictFind? [("name", "foo"), ("version", "1.0"), ("checksum", "abc123")]
        "name" = some "foo"
      ∧ get_crate_line 4 38
          [("name", "foo"), ("version", "1.0"), ("checksum", "abc123")]
        = some (spaces 4 ++ "foo"
            ++ spaces (38 - (("foo".length : Int) + ("1.0".length : Int)))
            ++ "1.0" ++ spaces STANZA_SPACER_WIDTH ++ "abc123") :=
  ⟨by decide,
    (c2_crate_line_layout 4 38 _ "foo" "1.0" "abc123"
      (by decide) (by decide) (by decide)).1 (by decide)⟩

theorem get_crate_line_missing {indentW fieldW : Int} {d : Dict}
    (h : dictFind? d "name" = none ∨ dictFind? d "version" = none) :
    get_crate_line indentW fieldW d = none := by
  cases h with
  | inl h => simp [get_crate_line, h]
  | inr h => cases hn : dictFind? d "name" <;> simp [get_crate_line, hn, h]

theorem stanza_lines_none {indentW fieldW : Int} {n : Nat} {pkgs : List Dict}
    {d : Dict} (hmem : d ∈ pkgs) (hck : hasKey d "checksum" = true)
    (hmiss : dictFind? d "name" = none ∨ dictFind? d "version" = none) :
    ∀ i, stanza_lines indentW fieldW n i pkgs = none := by
  induction pkgs with
  | nil => cases hmem
  | cons p rest ih =>
    intro i
    rcases List.mem_cons.mp hmem with rfl | hmem'
    · simp only [stanza_lines, hck, if_true, get_crate_line_missing hmiss]
    · simp only [stanza_lines]
      by_cases hp : hasKey p "checksum" = true
      · simp only [hp, if_true]
        cases hgl : get_crate_line indentW fieldW p with
        | none => rfl
        | some line => rw [ih hmem' (i + 1)]; rfl
      · simp only [hp, if_false]
        exact ih hmem' (i + 1)

/-- C10: stanza generation never silently renders a record that has a
checksum but lacks the name or version key: the rendering step raises
KeyError (modelled as none), aborting the whole stanza instead of
emitting a corrupted line. -/
theorem c10_no_silent_corruption (indentW fieldW : Int) (pkgs : List Dict)
    (d : Dict) (hmem : d ∈ pkgs) (hck : hasKey d "checksum" = true)
    (hmiss : dictFind? d "name" = none ∨ dictFind? d "version" = none) :
    generate_crates_stanza indentW fieldW pkgs = none := by
  unfold generate_crates_stanza
  rw [stanza_lines_none hmem hck hmiss 0]
  rfl

/-- c10_witness instantiates the loud-failure behaviour at a record
holding only a checksum. -/
theorem c10_witness :
    ([("checksum", "x")] : Dict) ∈ [([("checksum", "x")] : Dict)]
      ∧ hasKey [("checksum", "x")] "checksum" = true
      ∧ generate_crates_stanza 4 38 [[("checksum", "x")]] = none :=
  ⟨by decide, by decide,
    c10_no_silent_corruption 4 38 [[("checksum", "x")]] [("checksum", "x")]
      (by decide) (by decide) (Or.inl (by decide))⟩

theorem startsWith_firstline :
    ∀ (pat cs : List Char), '\n' ∉ pat →
    startsWith pat cs = startsWith pat (splitNL cs).1
  | [], _, _ => rfl
  | _ :: _, [], _ => rfl
  | p :: ps, c :: cs, hp => by
    by_cases hc : c = '\n'
    · subst hc
      have hpn : (p == '\n') = false := by
        have hne : p ≠ '\n' := fun e => hp (e ▸ List.mem_cons_self p ps)
        simp [hne]
      simp [splitNL, startsWith, hpn]
    · have ihc := startsWith_firstline ps cs
        (fun m => hp (List.mem_cons_of_mem p m))
      simp [splitNL, startsWith, hc, ihc]

theorem searchCaretAux_iff {pat : List Char} (hp : '\n' ∉ pat) :
    ∀ cs : List Char,
    searchCaretAux pat cs = true
      ↔ ∃ l ∈ (splitNL cs).2, startsWith pat l = true := by
  intro cs
  induction cs with
  | nil => simp [searchCaretAux, splitNL]
  | cons c cs ih =>
    by_cases hc : c = '\n'
    · subst hc
      simp only [searchCaretAux, splitNL, if_pos rfl]
      rw [Bool.or_eq_true, Bool.and_eq_true]
      constructor
      · rintro (⟨-, hsw⟩ | haux)
        · exact ⟨(splitNL cs).1, by simp,
            (startsWith_firstline pat cs hp) ▸ hsw⟩
        · obtain ⟨l, hl, hswl⟩ := ih.mp haux
          exact ⟨l, by simp [hl], hswl⟩
      · rintro ⟨l, hl, hswl⟩
        rcases List.mem_cons.mp hl with rfl | hl'
        · exact Or.inl ⟨rfl, (startsWith_firstline pat cs hp).symm ▸ hswl⟩
        · exact Or.inr (ih.mpr ⟨l, hl', hswl⟩)
    · simp only [searchCaretAux, splitNL, if_neg hc]
      rw [Bool.or_eq_true, Bool.and_eq_true]
      constructor
      · rintro (⟨hcc, -⟩ | haux)
        · exact absurd hcc (by simp [hc])
        · exact ih.mp haux
      · intro hx
        exact Or.inr (ih.mpr hx)

/-- C5: format detection is a pure function of metadata-header
presence.  is_v1_lockfile is true exactly when some line of the input
begins with the metadata header, whatever else (package tables
included) the text contains, and the driver routes the whole input to
the legacy extractor exactly when it is true, to the current-format
extractor otherwise. -/
theorem c5_format_detection (text : String) :
    (is_v1_lockfile text = true
        ↔ ∃ l ∈ pySplitLines text.data, startsWith metadataHeaderSeg l = true)
      ∧ pipeline_packages text
          = (if is_v1_lockfile text then get_packages_from_metadata text
              else get_packages text) := by
  constructor
  · have hp : '\n' ∉ metadataHeaderSeg := by decide
    unfold is_v1_lockfile pySplitLines
    rw [Bool.or_eq_true, searchCaretAux_iff hp text.data,
      startsWith_firstline metadataHeaderSeg text.data hp]
    constructor
    · rintro (h1 | ⟨l, hl, hswl⟩)
      · exact ⟨(splitNL text.data).1, by simp, h1⟩
      · exact ⟨l, by simp [hl], hswl⟩
    · rintro ⟨l, hl, hswl⟩
      rcases List.mem_cons.mp hl with rfl | hl'
      · exact Or.inl hswl
      · exact Or.inr ⟨l, hl', hswl⟩
  · rfl

theorem get_crate_line_isSome (indentW fieldW : Int) (d : Dict)
    (hn : (dictFind? d "name").isSome) (hv : (dictFind? d "version").isSome)
    (hc : (dictFind? d "checksum").isSome) :
    (get_crate_line indentW fieldW d).isSome = true := by
  obtain ⟨nm, hn'⟩ := Option.isSome_iff_exists.mp hn
  obtain ⟨vr, hv'⟩ := Option.isSome_iff_exists.mp hv
  obtain ⟨ck, hc'⟩ := Option.isSome_iff_exists.mp hc
  simp [get_crate_line, hn', hv', hc']

/-- stanza_lines_spec characterises the loop on record lists whose
checksum-bearing records all carry name and version: it renders one
line per checksum-bearing record, in order, each being the crate line
followed by an ending that is either empty or the continuation
marker. -/
theorem stanza_lines_spec (indentW fieldW : Int) (n : Nat) :
    ∀ (pkgs : List Dict) (i : Nat),
    (∀ d ∈ pkgs, hasKey d "checksum" = true →
      (dictFind? d "name").isSome ∧ (dictFind? d "version").isSome) →
    ∃ ls endings,
      stanza_lines indentW fieldW n i pkgs = some ls
      ∧ endings.length
          = (pkgs.filter (fun p => hasKey p "checksum")).length
      ∧ (∀ e ∈ endings, e = "" ∨ e = " \\")
      ∧ ls = List.zipWith
          (fun p e => (get_crate_line indentW fieldW p).getD "" ++ e)
          (pkgs.filter (fun p => hasKey p "checksum")) endings := by
  intro pkgs
  induction pkgs with
  | nil =>
    intro i _
    exact ⟨[], [], rfl, rfl, by simp, rfl⟩
  | cons p rest ih =>
    intro i h
    obtain ⟨ls, endings, h1, h2, h3, h4⟩ :=
      ih (i + 1) (fun d hd => h d (List.mem_cons_of_mem p hd))
    by_cases hp : hasKey p "checksum" = true
    · obtain ⟨hn, hv⟩ := h p (List.mem_cons_self p rest) hp
      obtain ⟨line, hline⟩ := Option.isSome_iff_exists.mp
        (get_crate_line_isSome indentW fieldW p hn hv hp)
      refine ⟨(line ++ if i = n - 1 then "" else " \\") :: ls,
        (if i = n - 1 then "" else " \\") :: endings, ?_, ?_, ?_, ?_⟩
      · simp only [stanza_lines, hp, if_true, hline, h1, Option.map_some']
      · simp [List.filter_cons, hp, h2]
      · intro e he
        rcases List.mem_cons.mp he with rfl | he'
        · by_cases hi : i = n - 1 <;> simp [hi]
        · exact h3 e he'
      · simp [List.filter_cons, hp, h4, hline]
    · have hp' : hasKey p "checksum" = false := by
        cases hb : hasKey p "checksum"
        · rfl
        · exact absurd hb hp
      refine ⟨ls, endings, ?_, ?_, h3, ?_⟩
      · simp only [stanza_lines, hp', if_false]
        exact h1
      · simpa [List.filter_cons, hp'] using h2
      · simpa [List.filter_cons, hp'] using h4

/-- C4 (amended): the driver contract as a function of the record
sequence the extraction stage yields.  When the sequence is empty the
driver exits with status one, prints the diagnostic to standard error
and nothing to standard output; when it is non-empty and every
checksum-bearing record carries name and version, the driver prints
the rendered stanza and a newline to standard output and exits with
status zero; and main is exactly this driver applied to the extracted
records.  A non-empty sequence holding a checksum-bearing record
without name or version instead aborts on an uncaught KeyError (exit
status one, a traceback on standard error, no stanza), which the
counterexample exhibits. -/
theorem c4_driver_contract (indentW fieldW : Int) (packages : List Dict) :
    (packages = [] →
      driver_model indentW fieldW packages = ⟨1, "", fatal_message ++ "\n"⟩)
    ∧ (packages ≠ [] →
      (∀ d ∈ packages, hasKey d "checksum" = true →
        (dictFind? d "name").isSome ∧ (dictFind? d "version").isSome) →
      ∃ out,
        generate_crates_stanza indentW fieldW packages = some out
        ∧ driver_model indentW fieldW packages = ⟨0, out ++ "\n", ""⟩)
    ∧ (∀ contents : String,
      main_model indentW fieldW contents
        = driver_model indentW fieldW (pipeline_packages contents)) := by
  refine ⟨?_, ?_, fun _ => rfl⟩
  · intro h
    simp [driver_model, h]
  · intro hne h
    obtain ⟨ls, endings, h1, -, -, -⟩ :=
      stanza_lines_spec indentW fieldW packages.length packages 0 h
    have hstanza : generate_crates_stanza indentW fieldW packages
        = some (String.intercalate "\n" ("cargo.crates \\" :: ls)) := by
      unfold generate_crates_stanza
      rw [h1]
      rfl
    refine ⟨_, hstanza, ?_⟩
    have hemp : packages.isEmpty = false := by
      cases hpp : packages
      · exact absurd hpp hne
      · rfl
    simp only [driver_model, hemp, hstanza]
    rfl

/-- C4 counterexample: a lockfile with one package block that has a
checksum but no name yields a non-empty record sequence, yet the run
does not write a stanza and exit zero: it dies on the KeyError with
exit status one. -/
theorem c4_counterexample :
    pipeline_packages "[[package]]\nchecksum = \"x\"\n" ≠ []
      ∧ main_model 4 38 "[[package]]\nchecksum = \"x\"\n"
          = ⟨1, "", "Traceback: KeyError"⟩ := by
  decide

/-- c4_witness instantiates the driver contract at a zero-byte file
(empty sequence, fatal path) and at a well-formed one-package file
(stanza path). -/
theorem c4_witness :
    (pipeline_packages "" = []
      ∧ main_model 4 38 "" = ⟨1, "", fatal_message ++ "\n"⟩)
    ∧ (pipeline_packages
          "[[package]]\nname = \"foo\"\nversion = \"1.0\"\nchecksum = \"abc123\"\n"
          ≠ []
      ∧ ∃ out,
        generate_crates_stanza 4 38 (pipeline_packages
          "[[package]]\nname = \"foo\"\nversion = \"1.0\"\nchecksum = \"abc123\"\n")
          = some out
        ∧ main_model 4 38
            "[[package]]\nname = \"foo\"\nversion = \"1.0\"\nchecksum = \"abc123\"\n"
            = ⟨0, out ++ "\n", ""⟩) :=
  ⟨⟨by decide, (c4_driver_contract 4 38 (pipeline_packages "")).1 (by decide)⟩,
    ⟨by decide,
      (c4_driver_contract 4 38 (pipeline_packages
        "[[package]]\nname = \"foo\"\nversion = \"1.0\"\nchecksum = \"abc123\"\n")).2.1
        (by decide) (by decide)⟩⟩

theorem pySplitLines_replicate_nl :
    ∀ n : Nat, pySplitLines (List.replicate n '\n') = List.replicate (n + 1) []
  | 0 => rfl
  | n + 1 => by
    have ih := pySplitLines_replicate_nl n
    simp only [pySplitLines] at ih ⊢
    simp [List.replicate_succ, splitNL, ih]

theorem skipBlanks_none_empties :
    ∀ (m : Nat) (ea : Bool),
    skipBlanks none ea (List.replicate m ([] : List Char)) [] = none
  | 0, _ => rfl
  | m + 1, ea => by
    simp only [List.replicate_succ, skipBlanks, List.isEmpty_nil, if_true]
    exact skipBlanks_none_empties m true

theorem scanBlocksF_empties :
    ∀ (f m : Nat) (fin : List Char),
    scanBlocksF f (List.replicate m ([] : List Char)) fin = []
  | 0, _, _ => rfl
  | _ + 1, 0, _ => rfl
  | f + 1, m + 1, fin => by
    simp only [List.replicate_succ, scanBlocksF]
    rw [if_neg (by decide)]
    exact scanBlocksF_empties f (m + 1 - 1) fin

/-- C8 counterexample: a package header followed by no further line at
all, by a bare newline, or by an empty line yields no block whatsoever
(the one-or-more-content-lines group of the block regex cannot match),
rather than the empty block the claim asserts. -/
theorem c8_counterexample :
    get_packages "[[package]]" = []
      ∧ get_packages "[[package]]\n" = []
      ∧ get_packages "[[package]]\n\n" = [] := by
  decide

/-- C8 (amended): a package header followed by zero non-blank lines
yields no block at all when the following lines are empty, so the
record list is empty and the driver takes the fatal path; when a
following blank line holds whitespace characters, the match captures a
whitespace-only block that parses to an empty record, which the stanza
step skips without crashing: the output is the bare declaration
line. -/
theorem c8_header_without_content :
    (∀ n : Nat,
      get_packages (String.mk (headerSeg ++ List.replicate n '\n')) = [])
      ∧ get_packages "[[package]]\n \n" = [[]]
      ∧ generate_crates_stanza STANZA_INDENT STANZA_FIELD_WIDTH [[]]
          = some "cargo.crates \\"
      ∧ main_model 4 38 "[[package]]\n \n" = ⟨0, "cargo.crates \\\n", ""⟩
      ∧ main_model 4 38 "[[package]]\n" = ⟨1, "", fatal_message ++ "\n"⟩ := by
  refine ⟨?_, by decide, by decide, by decide, by decide⟩
  intro n
  cases n with
  | zero => decide
  | succ m =>
    have hsegs : pySplitLines (headerSeg ++ List.replicate (m + 1) '\n')
        = headerSeg :: List.replicate (m + 1) ([] : List Char) := by
      rw [List.replicate_succ]
      show (splitNL (headerSeg ++ '\n' :: List.replicate m '\n')).1
          :: (splitNL (headerSeg ++ '\n' :: List.replicate m '\n')).2
          = headerSeg :: List.replicate (m + 1) []
      rw [@splitNL_append headerSeg (List.replicate m '\n') (by decide)]
      rw [pySplitLines_replicate_nl m]
    have hdata : (String.mk (headerSeg ++ List.replicate (m + 1) '\n')).data
        = headerSeg ++ List.replicate (m + 1) '\n' := rfl
    have hshape : headerSeg :: List.replicate (m + 1) ([] : List Char)
        = (headerSeg :: List.replicate m []) ++ [[]] := by
      rw [List.replicate_succ']
      rfl
    rw [get_packages_def, hdata, hsegs, hshape, List.dropLast_concat,
      List.getLastD_concat]
    have hlen : ((headerSeg :: List.replicate m ([] : List Char)) ++ [[]]).length
        = m + 1 + 1 := by simp
    rw [hlen]
    simp only [scanBlocksF, if_pos rfl, skipBlanks_none_empties m false]
    rw [scanBlocksF_empties (m + 1) m []]
    rfl

theorem takeWhile_middle {α : Type} (p : α → Bool) :
    ∀ (xs : List α) (y : α) (ys : List α),
    (∀ x ∈ xs, p x = true) → p y = false →
    (xs ++ y :: ys).takeWhile p = xs
  | [], y, ys, _, hy => by simp [List.takeWhile_cons, hy]
  | x :: xs, y, ys, hall, hy => by
    simp only [List.cons_append, List.takeWhile_cons, hall x (by simp), if_true]
    rw [takeWhile_middle p xs y ys (fun a ha => hall a (by simp [ha])) hy]

theorem dropWhile_middle {α : Type} (p : α → Bool) :
    ∀ (xs : List α) (y : α) (ys : List α),
    (∀ x ∈ xs, p x = true) → p y = false →
    (xs ++ y :: ys).dropWhile p = y :: ys
  | [], y, ys, _, hy => by simp [List.dropWhile_cons, hy]
  | x :: xs, y, ys, hall, hy => by
    simp only [List.cons_append, List.dropWhile_cons, hall x (by simp), if_true]
    exact dropWhile_middle p xs y ys (fun a ha => hall a (by simp [ha])) hy

theorem takeWhile_all {α : Type} (p : α → Bool) :
    ∀ xs : List α, (∀ x ∈ xs, p x = true) → xs.takeWhile p = xs
  | [], _ => rfl
  | x :: xs, hall => by
    simp only [List.takeWhile_cons, hall x (by simp), if_true]
    rw [takeWhile_all p xs (fun a ha => hall a (by simp [ha]))]

theorem metaSection_skip :
    ∀ (pre rest : List (List Char)),
    (∀ l ∈ pre, isMetadataHeader l = false) →
    metaSection (pre ++ rest) = metaSection rest
  | [], _, _ => rfl
  | l :: pre, rest, h => by
    simp only [List.cons_append, metaSection, h l (by simp), if_false]
    exact metaSection_skip pre rest (fun a ha => h a (by simp [ha]))

theorem metaSection_none :
    ∀ lines : List (List Char),
    (∀ l ∈ lines, isMetadataHeader l = false) →
    metaSection lines = none
  | [], _ => rfl
  | l :: ls, h => by
    simp only [metaSection, h l (by simp), if_false]
    exact metaSection_none ls (fun a ha => h a (by simp [ha]))

/-- C7: legacy extraction.  For a text made of arbitrary non-header
lines, the metadata header, a non-empty run of quoted-checksum or
blank section lines and a non-qualifying remainder, the extractor
returns exactly one record per section line with at least six
whitespace-delimited tokens, mapping the stripped tokens at zero-based
indices one, two, five to name, version, checksum (metaLineRecord),
skipping the shorter lines; and a text with no metadata header line
yields the empty sequence rather than an error.  Each quoted-checksum
section line is required to carry a non-whitespace character after the
nine-character key: a line ending right after the key makes the greedy
whitespace of the regex alternative cross the newline and absorb the
following line into the section, which is outside this model. -/
theorem c7_metadata_extraction :
    (∀ (pre sec post : List (List Char)),
      (∀ l ∈ pre, isMetadataHeader l = false) →
      (∀ l ∈ pre, '\n' ∉ l) →
      (∀ l ∈ sec, '\n' ∉ l) →
      (∀ l ∈ post, '\n' ∉ l) →
      (∀ l ∈ sec, (isChecksumLine l || isBlankSeg l) = true) →
      (∀ l ∈ sec, isChecksumLine l = true →
        (l.drop 9).any (fun c => !c.isWhitespace) = true) →
      sec ≠ [] →
      (∀ l ∈ post.take 1, (isChecksumLine l || isBlankSeg l) = false) →
      get_packages_from_metadata
        (String.mk (intercalateNL (pre ++ (metadataHeaderSeg :: (sec ++ post)))))
        = sec.filterMap metaLineRecord)
    ∧ (∀ text : String,
      (∀ l ∈ pySplitLines text.data, isMetadataHeader l = false) →
      get_packages_from_metadata text = []) := by
  constructor
  · intro pre sec post hpre hnl1 hnl2 hnl3 hsec hkeytail hsecne hpost
    have hlines : pySplitLines
        (intercalateNL (pre ++ (metadataHeaderSeg :: (sec ++ post))))
        = pre ++ (metadataHeaderSeg :: (sec ++ post)) := by
      apply pySplitLines_intercalateNL
      · simp
      · intro l hl
        rcases List.mem_append.mp hl with h | h
        · exact hnl1 l h
        · rcases List.mem_cons.mp h with rfl | h'
          · decide
          · rcases List.mem_append.mp h' with h'' | h''
            · exact hnl2 l h''
            · exact hnl3 l h''
    have hdata : (String.mk
        (intercalateNL (pre ++ (metadataHeaderSeg :: (sec ++ post))))).data
        = intercalateNL (pre ++ (metadataHeaderSeg :: (sec ++ post))) := rfl
    unfold get_packages_from_metadata
    rw [hdata, hlines, metaSection_skip pre _ hpre]
    simp only [metaSection,
      show isMetadataHeader metadataHeaderSeg = true by decide, if_true]
    have htake : (sec ++ post).takeWhile
        (fun x => isChecksumLine x || isBlankSeg x) = sec := by
      cases post with
      | nil => rw [List.append_nil]; exact takeWhile_all _ sec hsec
      | cons q post' =>
        exact takeWhile_middle _ sec q post' hsec (hpost q (by simp))
    rw [htake]
    have hse : sec.isEmpty = false := by
      cases sec with
      | nil => exact absurd rfl hsecne
      | cons a as => rfl
    simp [hse]
  · intro text h
    unfold get_packages_from_metadata
    rw [metaSection_none _ h]

/-- c7_witness instantiates the legacy extraction at the worked
example of the specification and the empty result at a header-free
text. -/
theorem c7_witness :
    get_packages_from_metadata
        (String.mk (intercalateNL ([] ++ (metadataHeaderSeg
          :: (["\"checksum bar 2.3.4 (reg) = deadbeef\"".data] ++ [])))))
        = ["\"checksum bar 2.3.4 (reg) = deadbeef\"".data].filterMap
            metaLineRecord
      ∧ get_packages_from_metadata "hello\n" = [] :=
  ⟨c7_metadata_extraction.1 []
      ["\"checksum bar 2.3.4 (reg) = deadbeef\"".data] []
      (by decide) (by decide) (by decide) (by decide) (by decide)
      (by decide) (by decide) (by decide),
    c7_metadata_extraction.2 "hello\n" (by decide)⟩

theorem wfLine_not_empty {l : List Char} (h : wfLine l) : l.isEmpty = false := by
  cases l with
  | nil => exact absurd rfl h.1
  | cons c cs => rfl

theorem wfLine_not_blank {l : List Char} (h : wfLine l) : isBlankSeg l = false := by
  cases l with
  | nil => exact absurd rfl h.1
  | cons c cs =>
    have hc : c.isWhitespace = false := h.2.1 c (by simp)
    simp [isBlankSeg, hc]

theorem wfLine_dropWhile {l : List Char} (h : wfLine l) :
    l.dropWhile (·.isWhitespace) = l := by
  cases l with
  | nil => rfl
  | cons c cs => exact dropWhile_cons_false (h.2.1 c (by simp))

theorem mkBlockSegs_cons (b : List (List Char)) (bs : List (List (List Char))) :
    mkBlockSegs (b :: bs) = headerSeg :: (b ++ [] :: mkBlockSegs bs) := rfl

theorem mkBlockSegs_no_nl :
    ∀ blocks : List (List (List Char)),
    (∀ b ∈ blocks, ∀ l ∈ b, '\n' ∉ l) →
    ∀ l ∈ mkBlockSegs blocks, '\n' ∉ l
  | [], _, l, hl => by simp [mkBlockSegs] at hl
  | b :: bs, h, l, hl => by
    rw [mkBlockSegs_cons] at hl
    rcases List.mem_cons.mp hl with rfl | hl'
    · decide
    · rcases List.mem_append.mp hl' with hb | hl''
      · exact h b (by simp) l hb
      · rcases List.mem_cons.mp hl'' with rfl | hl3
        · simp
        · exact mkBlockSegs_no_nl bs (fun x hx => h x (by simp [hx])) l hl3

theorem tryK_full (x : List Char) (xs rest : List (List Char)) (fin : List Char) :
    tryK (x :: xs) ([] :: rest) fin (x :: xs).length = some (x :: xs, rest) := by
  show tryK (x :: xs) ([] :: rest) fin (xs.length + 1) = _
  rw [tryK, if_pos (by simp),
    if_pos (show (([] : List Char) :: rest).head? = some [] from rfl)]
  rfl

theorem scan_mkBlockSegs :
    ∀ (blocks : List (List (List Char))) (fuel : Nat),
    (∀ b ∈ blocks, wfBlock b) →
    (mkBlockSegs blocks).length ≤ fuel →
    scanBlocksF fuel (mkBlockSegs blocks) [] = blocks
  | [], fuel, _, _ => by cases fuel <;> rfl
  | b :: bs, fuel, hwf, hfuel => by
    obtain ⟨l, b', rfl⟩ : ∃ l b', b = l :: b' := by
      have hne := (hwf b (by simp)).1
      cases b with
      | nil => exact absurd rfl hne
      | cons l b' => exact ⟨l, b', rfl⟩
    have hwb := hwf (l :: b') (by simp)
    have hwl : wfLine l := hwb.2 l (by simp)
    have hwb' : ∀ x ∈ b', wfLine x := fun x hx => hwb.2 x (by simp [hx])
    rw [mkBlockSegs_cons] at hfuel ⊢
    cases fuel with
    | zero => simp at hfuel
    | succ f =>
      have htw : (b' ++ [] :: mkBlockSegs bs).takeWhile (fun x => !x.isEmpty)
          = b' :=
        takeWhile_middle _ b' [] (mkBlockSegs bs)
          (fun x hx => by simp [wfLine_not_empty (hwb' x hx)]) (by decide)
      have hdw : (b' ++ [] :: mkBlockSegs bs).dropWhile (fun x => !x.isEmpty)
          = [] :: mkBlockSegs bs :=
        dropWhile_middle _ b' [] (mkBlockSegs bs)
          (fun x hx => by simp [wfLine_not_empty (hwb' x hx)]) (by decide)
      have hskip : skipBlanks none false (l :: (b' ++ [] :: mkBlockSegs bs)) []
          = some (l :: b', mkBlockSegs bs) := by
        simp only [skipBlanks, wfLine_not_empty hwl, wfLine_not_blank hwl,
          Bool.false_eq_true, if_false, wfLine_dropWhile hwl, htw, hdw]
        exact tryK_full l b' (mkBlockSegs bs) []
      have hrec : scanBlocksF f (mkBlockSegs bs) [] = bs := by
        apply scan_mkBlockSegs bs f (fun x hx => hwf x (by simp [hx]))
        simp only [List.length_cons, List.length_append] at hfuel
        omega
      simp only [scanBlocksF, eq_self_iff_true, if_true, List.cons_append,
        hskip, hrec]

/-- C3: round-trip shape.  For every well-formed current-format
lockfile text, built from blocks of well-formed lines each of which
parses to a record with name and version, extraction returns exactly
the parsed blocks in document order, and the rendered stanza is the
declaration line followed by exactly one line per checksum-bearing
block, in the same order, each line being that record's crate line
followed by an empty or continuation-marker ending; checksum-less
records contribute no line. -/
theorem c3_round_trip (indentW fieldW : Int) (blocks : List (List (List Char)))
    (hwf : ∀ b ∈ blocks, wfBlock b)
    (hfields : ∀ b ∈ blocks,
      (dictFind? (parse_package_block (String.mk (blockChars b))) "name").isSome
      ∧ (dictFind? (parse_package_block (String.mk (blockChars b)))
          "version").isSome) :
    get_packages (mkLockfile blocks)
        = blocks.map (fun b => parse_package_block (String.mk (blockChars b)))
    ∧ ∃ ls endings,
        generate_crates_stanza indentW fieldW (get_packages (mkLockfile blocks))
          = some (String.intercalate "\n" ("cargo.crates \\" :: ls))
        ∧ ls.length = (blocks.filter (fun b =>
            hasKey (parse_package_block (String.mk (blockChars b)))
              "checksum")).length
        ∧ (∀ e ∈ endings, e = "" ∨ e = " \\")
        ∧ ls = List.zipWith
            (fun p e => (get_crate_line indentW fieldW p).getD "" ++ e)
            ((get_packages (mkLockfile blocks)).filter
              (fun p => hasKey p "checksum")) endings := by
  have hpk : get_packages (mkLockfile blocks)
      = blocks.map (fun b => parse_package_block (String.mk (blockChars b))) := by
    rw [get_packages_def]
    have hdata : (mkLockfile blocks).data
        = intercalateNL (mkBlockSegs blocks ++ [[]]) := rfl
    rw [hdata]
    have hnl : ∀ l ∈ mkBlockSegs blocks ++ [[]], '\n' ∉ l := by
      intro l hl
      rcases List.mem_append.mp hl with h | h
      · exact mkBlockSegs_no_nl blocks
          (fun b hb x hx => ((hwf b hb).2 x hx).2.2) l h
      · rcases List.mem_singleton.mp h with rfl
        simp
    rw [pySplitLines_intercalateNL _ (by simp) hnl,
      List.dropLast_concat, List.getLastD_concat]
    rw [scan_mkBlockSegs blocks _ hwf (by simp)]
  refine ⟨hpk, ?_⟩
  have hfields' : ∀ d ∈ get_packages (mkLockfile blocks),
      hasKey d "checksum" = true →
      (dictFind? d "name").isSome ∧ (dictFind? d "version").isSome := by
    intro d hd _
    rw [hpk] at hd
    obtain ⟨b, hb, rfl⟩ := List.mem_map.mp hd
    exact hfields b hb
  obtain ⟨ls, endings, h1, h2, h3, h4⟩ :=
    stanza_lines_spec indentW fieldW (get_packages (mkLockfile blocks)).length
      (get_packages (mkLockfile blocks)) 0 hfields'
  refine ⟨ls, endings, ?_, ?_, h3, h4⟩
  · unfold generate_crates_stanza
    rw [h1]
    rfl
  · rw [h4, List.length_zipWith, h2, Nat.min_self, hpk, List.filter_map,
      List.length_map]
    rfl

/-- c3_witness instantiates the round-trip at a two-package lockfile
whose second package has no checksum. -/
theorem c3_witness :
    (∀ b ∈ exampleBlocks, wfBlock b)
      ∧ get_packages (mkLockfile exampleBlocks)
          = exampleBlocks.map
              (fun b => parse_package_block (String.mk (blockChars b))) :=
  ⟨by decide, (c3_round_trip 4 38 exampleBlocks (by decide) (by decide)).1⟩

end Cargo2Ports
